import Mathlib

/-!
Verification of the WCAG 2.4.6 headings-and-labels checker
(`wcag_headings_labels_checker.py`) against its specification.

The development shallowly embeds the Python source: pure helpers become Lean
functions on `List Char` / `String`; the element index built by
`get_page_content` becomes an explicit association-list with Python-dict
insertion semantics; the per-element judgment step of `analyze_elements`
becomes a total function from the (externally supplied) model reply to the
produced record, with JSON5 parsing modelled by an executable fueled parser;
DOM reads performed through the browser are modelled by a rose tree whose
nodes carry the attribute values the code reads.
-/

set_option maxHeartbeats 1000000

namespace Wcag

/-! ## TextNormalizer (`normalize_text`, source lines 42-70) -/

/-- Python `str.isspace` for one character: the Unicode whitespace
code points recognised by CPython. -/
def pyIsSpace (c : Char) : Bool :=
  c.val = 9 || c.val = 10 || c.val = 11 || c.val = 12 || c.val = 13 ||
  (28 ≤ c.val && c.val ≤ 31) || c.val = 32 || c.val = 0x85 || c.val = 0xa0 ||
  c.val = 0x1680 || (0x2000 ≤ c.val && c.val ≤ 0x200a) ||
  c.val = 0x2028 || c.val = 0x2029 || c.val = 0x202f || c.val = 0x205f ||
  c.val = 0x3000

/-- Python `str.isprintable` for one character: every character is printable
except those of the Unicode categories Other and Separator, with the ASCII
space printable.  The model enumerates the control and separator code points
(C0, C1, soft hyphen, the Unicode space/format/separator blocks, BOM) and
treats the remaining assigned code points as printable. -/
def pyIsPrintable (c : Char) : Bool :=
  c = ' ' ||
  !(c.val < 32 || (0x7f ≤ c.val && c.val ≤ 0xa0) || pyIsSpace c ||
    c.val = 0xad || c.val = 0x1680 || (0x2000 ≤ c.val && c.val ≤ 0x200f) ||
    (0x2028 ≤ c.val && c.val ≤ 0x202f) || c.val = 0x205f || c.val = 0x2060 ||
    c.val = 0x3000 || c.val = 0xfeff)

/-- The `conversion` table of `normalize_text` (full-width punctuation to
half-width), source lines 56-63.  Values may be several characters long
(`str.maketrans` accepts multi-character replacement strings). -/
def convTable : List (Char × String) :=
  [('！', "!"), ('？', "?"), ('：', ":"), ('；', ";"),
   ('（', "("), ('）', ")"), ('［', "["), ('］', "]"),
   ('｛', "\x7b"), ('｝', "\x7d"), ('．', "."), ('，', ","),
   ('‼', "!!"), ('⁉', "!?"), ('⁈', "?!"),
   ('〜', "~"), ('～', "~"), ('―', "-"),
   ('…', "...")]

/-- `str.translate(str.maketrans(conversion))` applied to one character. -/
def convChar (c : Char) : List Char :=
  match convTable.find? (fun p => p.1 == c) with
  | some p => p.2.data
  | none => [c]

/-- Step 1 of `normalize_text`: `text.replace('　', ' ')`. -/
def nstep1 (cs : List Char) : List Char :=
  cs.map (fun c => if c = '　' then ' ' else c)

/-- Step 2 of `normalize_text`: `text.translate(str.maketrans(conversion))`. -/
def nstep2 (cs : List Char) : List Char :=
  (cs.map convChar).flatten

/-- Step 3 of `normalize_text`:
`''.join(c if c.isprintable() or c.isspace() else ' ' for c in text)`. -/
def nstep3 (cs : List Char) : List Char :=
  cs.map (fun c => if pyIsPrintable c || pyIsSpace c then c else ' ')

/-- Accumulator worker for Python `str.split()` (split on whitespace runs,
dropping empty pieces).  `acc` holds the current word reversed. -/
def pySplitAux : List Char → List Char → List (List Char)
  | [], acc => if acc.isEmpty then [] else [acc.reverse]
  | c :: cs, acc =>
    if pyIsSpace c then
      if acc.isEmpty then pySplitAux cs [] else acc.reverse :: pySplitAux cs []
    else pySplitAux cs (c :: acc)

/-- Python `text.split()`. -/
def pySplit (cs : List Char) : List (List Char) :=
  pySplitAux cs []

/-- Python `' '.join(words)`. -/
def pyJoin : List (List Char) → List Char
  | [] => []
  | [t] => t
  | t :: t' :: ts => t ++ ' ' :: pyJoin (t' :: ts)

/-- The body of `normalize_text` on the character sequence of a non-empty
input: the four normalization steps in source order. -/
def normalizeChars (cs : List Char) : List Char :=
  pyJoin (pySplit (nstep3 (nstep2 (nstep1 cs))))

/-- `normalize_text` (source lines 42-70).  Empty (falsy) input returns the
empty string. -/
def normalize_text (s : String) : String :=
  if s = "" then "" else String.mk (normalizeChars s.data)

example : normalize_text "  a  b  " = "a b" := by decide
example : normalize_text "Ｗelcome！" = "Ｗelcome!" := by decide
example : normalize_text "a\tb\nc" = "a b c" := by decide
example : normalize_text "　全角　スペース　" = "全角 スペース" := by decide
example : normalize_text "…〜" = "...~" := by decide
example : normalize_text "\x01\x02" = "" := by decide
example : normalize_text "" = "" := by decide

/-! ### Properties of the split/join pipeline -/

lemma pySplitAux_nil (acc : List Char) :
    pySplitAux [] acc = if acc.isEmpty then [] else [acc.reverse] := rfl

lemma pySplitAux_cons (c : Char) (cs acc : List Char) :
    pySplitAux (c :: cs) acc =
      if pyIsSpace c then
        (if acc.isEmpty then pySplitAux cs [] else acc.reverse :: pySplitAux cs [])
      else pySplitAux cs (c :: acc) := rfl

lemma pySplitAux_good (cs : List Char) : ∀ (acc : List Char),
    (∀ a ∈ acc, pyIsSpace a = false) →
    ∀ t ∈ pySplitAux cs acc, t ≠ [] ∧ ∀ d ∈ t, pyIsSpace d = false := by
  induction cs with
  | nil =>
    intro acc hacc t ht
    unfold pySplitAux at ht
    split at ht
    · simp at ht
    · next hne =>
      simp only [List.mem_singleton] at ht
      subst ht
      refine ⟨?_, ?_⟩
      · simp only [List.isEmpty_iff] at hne
        simpa using hne
      · intro d hd
        exact hacc d (List.mem_reverse.mp hd)
  | cons c cs ih =>
    intro acc hacc t ht
    unfold pySplitAux at ht
    split at ht
    · split at ht
      · exact ih [] (by simp) t ht
      · next hne =>
        rcases List.mem_cons.mp ht with rfl | ht'
        · refine ⟨?_, ?_⟩
          · simp only [List.isEmpty_iff] at hne
            simpa using hne
          · intro d hd
            exact hacc d (List.mem_reverse.mp hd)
        · exact ih [] (by simp) t ht'
    · next hc =>
      refine ih (c :: acc) ?_ t ht
      intro a ha
      rcases List.mem_cons.mp ha with rfl | ha'
      · simpa using hc
      · exact hacc a ha'

lemma pySplitAux_src (cs : List Char) : ∀ (acc : List Char),
    ∀ t ∈ pySplitAux cs acc, ∀ d ∈ t, d ∈ cs ∨ d ∈ acc := by
  induction cs with
  | nil =>
    intro acc t ht d hd
    unfold pySplitAux at ht
    split at ht
    · simp at ht
    · simp only [List.mem_singleton] at ht
      subst ht
      exact Or.inr (List.mem_reverse.mp hd)
  | cons c cs ih =>
    intro acc t ht d hd
    unfold pySplitAux at ht
    split at ht
    · split at ht
      · rcases ih [] t ht d hd with h | h
        · exact Or.inl (List.mem_cons_of_mem _ h)
        · simp at h
      · rcases List.mem_cons.mp ht with rfl | ht'
        · exact Or.inr (List.mem_reverse.mp hd)
        · rcases ih [] t ht' d hd with h | h
          · exact Or.inl (List.mem_cons_of_mem _ h)
          · simp at h
    · rcases ih (c :: acc) t ht d hd with h | h
      · exact Or.inl (List.mem_cons_of_mem _ h)
      · rcases List.mem_cons.mp h with rfl | h'
        · exact Or.inl (List.mem_cons_self _ _)
        · exact Or.inr h'

lemma pySplitAux_word_append (t : List Char) (h : ∀ d ∈ t, pyIsSpace d = false) :
    ∀ (r acc : List Char), pySplitAux (t ++ r) acc = pySplitAux r (t.reverse ++ acc) := by
  induction t with
  | nil => intro r acc; simp
  | cons a t ih =>
    intro r acc
    have ha : pyIsSpace a = false := h a (List.mem_cons_self _ _)
    show pySplitAux (a :: (t ++ r)) acc = _
    rw [pySplitAux_cons, if_neg (by simp [ha])]
    rw [ih (fun d hd => h d (List.mem_cons_of_mem _ hd)) r (a :: acc)]
    simp

lemma pySplitAux_space_head (c : Char) (hc : pyIsSpace c = true) (r acc : List Char) :
    pySplitAux (c :: r) acc =
      if acc.isEmpty then pySplitAux r [] else acc.reverse :: pySplitAux r [] := by
  rw [pySplitAux_cons, if_pos hc]

lemma pyJoin_ne_nil (t : List Char) (ts : List (List Char)) (h : t ≠ []) :
    pyJoin (t :: ts) ≠ [] := by
  cases ts with
  | nil => simpa [pyJoin]
  | cons t' ts' => simp [pyJoin]

lemma pySplit_pyJoin (ts : List (List Char))
    (h : ∀ t ∈ ts, t ≠ [] ∧ ∀ d ∈ t, pyIsSpace d = false) :
    pySplit (pyJoin ts) = ts := by
  induction ts with
  | nil => rfl
  | cons t ts ih =>
    obtain ⟨htne, htws⟩ := h t (List.mem_cons_self _ _)
    cases ts with
    | nil =>
      show pySplit (pyJoin [t]) = [t]
      have h1 : pyJoin [t] = t := rfl
      rw [h1]
      unfold pySplit
      have h2 := pySplitAux_word_append t htws [] []
      rw [List.append_nil] at h2
      rw [h2]
      simp [pySplitAux, List.isEmpty_iff, htne]
    | cons t' ts' =>
      have h2 : pyJoin (t :: t' :: ts') = t ++ ' ' :: pyJoin (t' :: ts') := rfl
      rw [h2]
      unfold pySplit
      rw [pySplitAux_word_append t htws _ []]
      rw [pySplitAux_space_head ' ' (by decide) _ _]
      rw [if_neg (by simp [List.isEmpty_iff, htne])]
      rw [List.append_nil, List.reverse_reverse]
      have h3 := ih (fun u hu => h u (List.mem_cons_of_mem _ hu))
      unfold pySplit at h3
      rw [h3]

lemma mem_pyJoin (ts : List (List Char)) (c : Char) (hc : c ∈ pyJoin ts) :
    c = ' ' ∨ ∃ t ∈ ts, c ∈ t := by
  induction ts with
  | nil => simp [pyJoin] at hc
  | cons t ts ih =>
    cases ts with
    | nil => exact Or.inr ⟨t, List.mem_cons_self _ _, hc⟩
    | cons t' ts' =>
      have h2 : pyJoin (t :: t' :: ts') = t ++ ' ' :: pyJoin (t' :: ts') := rfl
      rw [h2] at hc
      rcases List.mem_append.mp hc with h | h
      · exact Or.inr ⟨t, List.mem_cons_self _ _, h⟩
      · rcases List.mem_cons.mp h with rfl | h'
        · exact Or.inl rfl
        · rcases ih h' with h'' | ⟨u, hu, hcu⟩
          · exact Or.inl h''
          · exact Or.inr ⟨u, List.mem_cons_of_mem _ hu, hcu⟩

lemma pyJoin_head (ts : List (List Char)) (h : ∀ t ∈ ts, t ≠ []) :
    ∀ c ∈ (pyJoin ts).head?, ∃ t ∈ ts, c ∈ t := by
  cases ts with
  | nil => simp [pyJoin]
  | cons t ts =>
    have htne := h t (List.mem_cons_self _ _)
    cases ts with
    | nil =>
      intro c hc
      exact ⟨t, List.mem_cons_self _ _, List.mem_of_mem_head? hc⟩
    | cons t' ts' =>
      intro c hc
      have h2 : pyJoin (t :: t' :: ts') = t ++ ' ' :: pyJoin (t' :: ts') := rfl
      rw [h2] at hc
      cases t with
      | nil => exact absurd rfl htne
      | cons a t0 =>
        simp only [List.cons_append, List.head?_cons, Option.mem_def,
          Option.some.injEq] at hc
        subst hc
        exact ⟨a :: t0, List.mem_cons_self _ _, List.mem_cons_self _ _⟩

lemma pyJoin_getLast (ts : List (List Char)) (h : ∀ t ∈ ts, t ≠ []) :
    ∀ c ∈ (pyJoin ts).getLast?, ∃ t ∈ ts, c ∈ t := by
  induction ts with
  | nil => simp [pyJoin]
  | cons t ts ih =>
    cases ts with
    | nil =>
      intro c hc
      exact ⟨t, List.mem_cons_self _ _, List.mem_of_mem_getLast? hc⟩
    | cons t' ts' =>
      intro c hc
      have h2 : pyJoin (t :: t' :: ts') = t ++ ' ' :: pyJoin (t' :: ts') := rfl
      rw [h2] at hc
      have hJ : pyJoin (t' :: ts') ≠ [] :=
        pyJoin_ne_nil t' ts' (h t' (List.mem_cons_of_mem _ (List.mem_cons_self _ _)))
      rw [List.getLast?_append_of_ne_nil _ (by simp)] at hc
      rw [show (' ' :: pyJoin (t' :: ts')) = [' '] ++ pyJoin (t' :: ts') from rfl] at hc
      rw [List.getLast?_append_of_ne_nil _ hJ] at hc
      obtain ⟨u, hu, hcu⟩ := ih (fun u hu => h u (List.mem_cons_of_mem _ hu)) c hc
      exact ⟨u, List.mem_cons_of_mem _ hu, hcu⟩

lemma chain'_token (t : List Char) (h : ∀ d ∈ t, pyIsSpace d = false) :
    List.Chain' (fun a b => ¬(a = ' ' ∧ b = ' ')) t := by
  induction t with
  | nil => simp
  | cons a t ih =>
    cases t with
    | nil => simp
    | cons b t0 =>
      rw [List.chain'_cons]
      refine ⟨?_, ih (fun d hd => h d (List.mem_cons_of_mem _ hd))⟩
      rintro ⟨rfl, -⟩
      exact absurd (h ' ' (List.mem_cons_self _ _)) (by decide)

lemma chain'_pyJoin (ts : List (List Char))
    (h : ∀ t ∈ ts, t ≠ [] ∧ ∀ d ∈ t, pyIsSpace d = false) :
    List.Chain' (fun a b => ¬(a = ' ' ∧ b = ' ')) (pyJoin ts) := by
  induction ts with
  | nil => simp [pyJoin]
  | cons t ts ih =>
    obtain ⟨htne, htws⟩ := h t (List.mem_cons_self _ _)
    cases ts with
    | nil => exact chain'_token t htws
    | cons t' ts' =>
      have h2 : pyJoin (t :: t' :: ts') = t ++ ' ' :: pyJoin (t' :: ts') := rfl
      rw [h2, List.chain'_append]
      refine ⟨chain'_token t htws, ?_, ?_⟩
      · rw [List.chain'_cons']
        refine ⟨?_, ih (fun u hu => h u (List.mem_cons_of_mem _ hu))⟩
        intro b hb
        obtain ⟨u, hu, hbu⟩ :=
          pyJoin_head (t' :: ts')
            (fun u hu => (h u (List.mem_cons_of_mem _ hu)).1) b hb
        have hbs := (h u (List.mem_cons_of_mem _ hu)).2 b hbu
        rintro ⟨-, rfl⟩
        exact absurd hbs (by decide)
      · intro x hx y hy
        have hxs := htws x (List.mem_of_mem_getLast? hx)
        rintro ⟨rfl, -⟩
        exact absurd hxs (by decide)

/-! ### Character-level facts used for idempotence -/

lemma convTable_out_closed :
    ∀ p ∈ convTable, ∀ c ∈ p.2.data, convChar c = [c] := by decide

lemma convChar_out (d c : Char) (hc : c ∈ convChar d) : convChar c = [c] := by
  unfold convChar at hc
  cases hfind : convTable.find? (fun p => p.1 == d) with
  | none =>
    rw [hfind] at hc
    simp only [List.mem_singleton] at hc
    subst hc
    unfold convChar
    rw [hfind]
  | some p =>
    rw [hfind] at hc
    exact convTable_out_closed p (List.mem_of_find?_eq_some hfind) c hc

lemma mem_nstep2 (l : List Char) (c : Char) (hc : c ∈ nstep2 l) : convChar c = [c] := by
  unfold nstep2 at hc
  rw [List.mem_flatten] at hc
  obtain ⟨L, hL, hcL⟩ := hc
  rw [List.mem_map] at hL
  obtain ⟨d, _, rfl⟩ := hL
  exact convChar_out d c hcL

lemma mem_nstep3 (l : List Char) (c : Char) (hc : c ∈ nstep3 l) :
    c = ' ' ∨ (c ∈ l ∧ (pyIsPrintable c || pyIsSpace c) = true) := by
  unfold nstep3 at hc
  rw [List.mem_map] at hc
  obtain ⟨d, hd, hcd⟩ := hc
  by_cases h : (pyIsPrintable d || pyIsSpace d) = true
  · rw [if_pos h] at hcd
    subst hcd
    exact Or.inr ⟨hd, h⟩
  · rw [if_neg h] at hcd
    exact Or.inl hcd.symm

lemma normalizeChars_char (cs : List Char) (c : Char) (hc : c ∈ normalizeChars cs) :
    c ≠ '　' ∧ convChar c = [c] ∧ (pyIsPrintable c || pyIsSpace c) = true := by
  unfold normalizeChars at hc
  rcases mem_pyJoin _ _ hc with rfl | ⟨t, ht, hct⟩
  · exact ⟨by decide, by decide, by decide⟩
  · have hgood := pySplitAux_good _ [] (by simp) t ht
    have hns : pyIsSpace c = false := hgood.2 c hct
    rcases pySplitAux_src _ [] t ht c hct with hsrc | hsrc
    swap
    · simp at hsrc
    rcases mem_nstep3 _ _ hsrc with rfl | ⟨hmem, hps⟩
    · exact absurd hns (by decide)
    · refine ⟨?_, mem_nstep2 _ _ hmem, hps⟩
      intro hcontra
      rw [hcontra] at hns
      exact absurd hns (by decide)

lemma nstep1_fix : ∀ (cs : List Char), (∀ c ∈ cs, c ≠ '　') → nstep1 cs = cs := by
  intro cs h
  induction cs with
  | nil => rfl
  | cons c cs ih =>
    show (if c = '　' then ' ' else c) :: nstep1 cs = c :: cs
    rw [if_neg (h c (List.mem_cons_self _ _)),
      ih (fun d hd => h d (List.mem_cons_of_mem _ hd))]

lemma nstep2_fix : ∀ (cs : List Char), (∀ c ∈ cs, convChar c = [c]) → nstep2 cs = cs := by
  intro cs h
  induction cs with
  | nil => rfl
  | cons c cs ih =>
    show convChar c ++ nstep2 cs = c :: cs
    rw [h c (List.mem_cons_self _ _),
      ih (fun d hd => h d (List.mem_cons_of_mem _ hd))]
    rfl

lemma nstep3_fix : ∀ (cs : List Char),
    (∀ c ∈ cs, (pyIsPrintable c || pyIsSpace c) = true) → nstep3 cs = cs := by
  intro cs h
  induction cs with
  | nil => rfl
  | cons c cs ih =>
    show (if (pyIsPrintable c || pyIsSpace c) = true then c else ' ') :: nstep3 cs = c :: cs
    rw [if_pos (h c (List.mem_cons_self _ _)),
      ih (fun d hd => h d (List.mem_cons_of_mem _ hd))]

lemma normalizeChars_idem (cs : List Char) :
    normalizeChars (normalizeChars cs) = normalizeChars cs := by
  have hchar := normalizeChars_char cs
  have h1 : nstep1 (normalizeChars cs) = normalizeChars cs :=
    nstep1_fix _ (fun c hc => (hchar c hc).1)
  have h2 : nstep2 (normalizeChars cs) = normalizeChars cs :=
    nstep2_fix _ (fun c hc => (hchar c hc).2.1)
  have h3 : nstep3 (normalizeChars cs) = normalizeChars cs :=
    nstep3_fix _ (fun c hc => (hchar c hc).2.2)
  have hts : ∀ t ∈ pySplit (nstep3 (nstep2 (nstep1 cs))),
      t ≠ [] ∧ ∀ d ∈ t, pyIsSpace d = false :=
    pySplitAux_good _ [] (by simp)
  have key : normalizeChars (normalizeChars cs) = pyJoin (pySplit (normalizeChars cs)) := by
    show pyJoin (pySplit (nstep3 (nstep2 (nstep1 (normalizeChars cs))))) = _
    rw [h1, h2, h3]
  rw [key]
  show pyJoin (pySplit (pyJoin (pySplit (nstep3 (nstep2 (nstep1 cs)))))) = normalizeChars cs
  rw [pySplit_pyJoin _ hts]
  rfl

/-- C6: for every input string (including the empty string and strings of
only control characters) `normalize_text` is idempotent, returns the empty
string for empty input, and its output contains no two consecutive space
characters and no leading or trailing whitespace. -/
theorem C6_normalize_text_props (s : String) :
    normalize_text (normalize_text s) = normalize_text s ∧
    normalize_text "" = "" ∧
    List.Chain' (fun a b => ¬(a = ' ' ∧ b = ' ')) (normalize_text s).data ∧
    (∀ c ∈ (normalize_text s).data.head?, pyIsSpace c = false) ∧
    (∀ c ∈ (normalize_text s).data.getLast?, pyIsSpace c = false) := by
  by_cases hs : s = ""
  · subst hs
    refine ⟨rfl, rfl, ?_, ?_, ?_⟩ <;> simp [normalize_text]
  · have hs' : normalize_text s = String.mk (normalizeChars s.data) := by
      rw [normalize_text, if_neg hs]
    have hts : ∀ t ∈ pySplit (nstep3 (nstep2 (nstep1 s.data))),
        t ≠ [] ∧ ∀ d ∈ t, pyIsSpace d = false :=
      pySplitAux_good _ [] (by simp)
    refine ⟨?_, rfl, ?_, ?_, ?_⟩
    · rw [hs']
      by_cases hmk : String.mk (normalizeChars s.data) = ""
      · rw [normalize_text, if_pos hmk]
        exact hmk.symm
      · rw [normalize_text, if_neg hmk]
        show String.mk (normalizeChars (normalizeChars s.data)) = _
        rw [normalizeChars_idem]
    · rw [hs']
      exact chain'_pyJoin _ hts
    · rw [hs']
      intro c hc
      obtain ⟨t, ht, hct⟩ := pyJoin_head _ (fun t ht => (hts t ht).1) c hc
      exact (hts t ht).2 c hct
    · rw [hs']
      intro c hc
      obtain ⟨t, ht, hct⟩ := pyJoin_getLast _ (fun t ht => (hts t ht).1) c hc
      exact (hts t ht).2 c hct

/-! ## The element index and the correlation tiers
(`get_page_content`, `extract_headings`, `extract_labels`) -/

/-- One value of the element index built by `get_page_content`
(source lines 192-200 and 284-293): the per-element dict stored under the
XPath key.  `forAttr` is empty for headings (the `for` key is absent from
heading entries; every read of it in the source tests truthiness, for which
the empty string behaves identically). -/
structure Info where
  tag : String
  id : String
  text : String
  xpath : String
  alt : String
  ariaLabel : String
  ariaLabelledby : String
  forAttr : String
deriving DecidableEq

/-- Python `str.replace(' ', '')`. -/
def stripSpaces (s : String) : String :=
  String.mk (s.data.filter (fun c => c ≠ ' '))

/-- `xs` occurs at the start of `ys`. -/
def isPrefixB : List Char → List Char → Bool
  | [], _ => true
  | _ :: _, [] => false
  | a :: xs, b :: ys => a == b && isPrefixB xs ys

/-- `xs` occurs contiguously inside `ys`. -/
def isSubB (xs : List Char) : List Char → Bool
  | [] => xs.isEmpty
  | y :: ys => isPrefixB xs (y :: ys) || isSubB xs ys

/-- Python substring containment `s in t`. -/
def strIn (s t : String) : Bool := isSubB s.data t.data

example : strIn "Welcome" "xWelcome!" = true := by decide
example : strIn "" "abc" = true := by decide
example : strIn "ab" "acb" = false := by decide

/-- Tier 1 of the correlation (exact): same tag and space-stripped
normalized-text equality (source lines 318-321 / 368-371). -/
def tierExact (tag text : String) (elements : List (String × Info)) :
    Option (String × Info) :=
  elements.find? (fun p =>
    p.2.tag == tag &&
    stripSpaces (normalize_text p.2.text) == stripSpaces (normalize_text text))

/-- Tier 2 of the correlation (containment), transcribing the Python
condition literally: `info['tag'] == tag and normalize_text(info['text'])
in normalize_text(text) or normalize_text(text) in
normalize_text(info['text'])`, which Python precedence parses as
`(A and B) or C` (source lines 322-325 / 372-375). -/
def tierContain (tag text : String) (elements : List (String × Info)) :
    Option (String × Info) :=
  elements.find? (fun p =>
    (p.2.tag == tag && strIn (normalize_text p.2.text) (normalize_text text)) ||
    strIn (normalize_text text) (normalize_text p.2.text))

/-- Tier 3 of the correlation (positional): first element of the same tag
(source lines 326-329 / 376-379). -/
def tierPositional (tag : String) (elements : List (String × Info)) :
    Option (String × Info) :=
  elements.find? (fun p => p.2.tag == tag)

/-- The `element_xpath` correlation expression shared by `extract_headings`
(with `tag = f'h{level}'`, source lines 318-332) and `extract_labels`
(with `tag = 'label'`, source lines 368-382): three nested `next(...)`
calls over the element index in insertion order, defaulting to
`'Unknown'`. -/
def correlate_element_xpath (tag text : String)
    (elements : List (String × Info)) : String :=
  match tierExact tag text elements with
  | some p => p.2.xpath
  | none =>
    match tierContain tag text elements with
    | some p => p.2.xpath
    | none =>
      match tierPositional tag elements with
      | some p => p.2.xpath
      | none => "Unknown"

/-- The live-label descriptor used as the C1 failing input. -/
def c1LabelInfo : Info :=
  { tag := "label", id := "", text := "Welcome!", xpath := "/html/body/label",
    alt := "", ariaLabel := "", ariaLabelledby := "", forAttr := "" }

/-- C1 (code bug): the containment tier selects a descriptor of a
different tag.  With a static `h1` node of text `Welcome` and a live
index holding only a `label` descriptor of text `Welcome!`, the exact
tier misses, and the containment tier fires through its un-tag-checked
second disjunct (`normalize_text(text) in normalize_text(info['text'])`),
returning the label's xpath — the claim (and the spec's "same tag and one
normalized text is a substring of the other") requires that no
different-tag descriptor is ever selected by this tier. -/
theorem C1_containment_ignores_tag :
    tierExact "h1" "Welcome" [("/html/body/label", c1LabelInfo)] = none ∧
    tierContain "h1" "Welcome" [("/html/body/label", c1LabelInfo)]
      = some ("/html/body/label", c1LabelInfo) ∧
    correlate_element_xpath "h1" "Welcome" [("/html/body/label", c1LabelInfo)]
      = "/html/body/label" ∧
    c1LabelInfo.tag ≠ "h1" := by decide

/-! ## JSON values, Python truthiness, dict operations -/

/-- A JSON value as produced by `json5.loads` (numeric literals are
modelled as integers; no claim depends on non-integral numbers). -/
inductive JVal where
  | null : JVal
  | bool : Bool → JVal
  | num : Int → JVal
  | str : String → JVal
  | arr : List JVal → JVal
  | obj : List (String × JVal) → JVal

/-- A parsed JSON object (a Python dict in insertion order). -/
abbrev JObj := List (String × JVal)

/-- Python truthiness of a JSON value (`None`, `False`, `0`, `''` and
empty containers are falsy). -/
def jTruthy : JVal → Bool
  | .null => false
  | .bool b => b
  | .num n => n != 0
  | .str s => s ≠ ""
  | .arr xs => !xs.isEmpty
  | .obj fs => !fs.isEmpty

/-- Python-dict assignment `d[k] = v`: replace in place if the key exists,
else append at the end (dicts preserve first-insertion order). -/
def dictInsert (k : String) (v : JVal) : JObj → JObj
  | [] => [(k, v)]
  | (k', v') :: rest =>
    if k' = k then (k, v) :: rest else (k', v') :: dictInsert k v rest

/-- Python dict lookup: `d[k]` when `some`, `KeyError` when `none`;
also `k in d` via `Option.isSome`. -/
def jget (k : String) : JObj → Option JVal
  | [] => none
  | (k', v) :: rest => if k' = k then some v else jget k rest

/-! ## The `json5.loads` model: a fueled recursive-descent parser for the
lenient object syntax (single- or double-quoted strings, unquoted keys,
trailing commas, integers, booleans, `null`, arrays, objects). -/

/-- ASCII whitespace skipped between tokens. -/
def skipWs (cs : List Char) : List Char :=
  cs.dropWhile (fun c => c = ' ' || c = '\t' || c = '\n' || c = '\r')

/-- The single-quote character. -/
def squote : Char := Char.ofNat 39

/-- Characters allowed in an unquoted key. -/
def idChar (c : Char) : Bool := c.isAlphanum || c = '_' || c = '$'

/-- String-literal body up to the closing quote `q`, with common escapes. -/
def parseStrBody (q : Char) : Nat → List Char → Option (String × List Char)
  | 0, _ => none
  | _ + 1, [] => none
  | fuel + 1, c :: cs =>
    if c = q then some ("", cs)
    else if c = '\\' then
      match cs with
      | [] => none
      | e :: cs' =>
        let esc : Option Char :=
          if e = 'n' then some '\n'
          else if e = 't' then some '\t'
          else if e = 'r' then some '\r'
          else if e = '\\' then some '\\'
          else if e = '/' then some '/'
          else if e = '"' then some '"'
          else if e = squote then some squote
          else none
        match esc with
        | none => none
        | some ec =>
          match parseStrBody q fuel cs' with
          | some (s, rest) => some (String.mk (ec :: s.data), rest)
          | none => none
    else
      match parseStrBody q fuel cs with
      | some (s, rest) => some (String.mk (c :: s.data), rest)
      | none => none

/-- A run of decimal digits (at least one). -/
def parseDigits (cs : List Char) : Option (Nat × List Char) :=
  let ds := cs.takeWhile (fun c => c.isDigit)
  if ds.isEmpty then none
  else some (ds.foldl (fun acc c => acc * 10 + (c.toNat - 48)) 0,
    cs.dropWhile (fun c => c.isDigit))

mutual

/-- One JSON5 value. -/
def parseVal : Nat → List Char → Option (JVal × List Char)
  | 0, _ => none
  | fuel + 1, cs =>
    match skipWs cs with
    | [] => none
    | c :: rest =>
      if c = '\x7b' then parseObj fuel rest
      else if c = '[' then parseArr fuel rest
      else if c = '"' then
        match parseStrBody '"' fuel rest with
        | some (s, r) => some (.str s, r)
        | none => none
      else if c = squote then
        match parseStrBody squote fuel rest with
        | some (s, r) => some (.str s, r)
        | none => none
      else if c = 't' then
        if rest.take 3 = ['r', 'u', 'e'] then some (.bool true, rest.drop 3) else none
      else if c = 'f' then
        if rest.take 4 = ['a', 'l', 's', 'e'] then some (.bool false, rest.drop 4)
        else none
      else if c = 'n' then
        if rest.take 3 = ['u', 'l', 'l'] then some (.null, rest.drop 3) else none
      else if c = '-' then
        match parseDigits rest with
        | some (n, r) => some (.num (-(n : Int)), r)
        | none => none
      else if c.isDigit then
        match parseDigits (c :: rest) with
        | some (n, r) => some (.num (n : Int), r)
        | none => none
      else none

/-- Array body after the opening bracket. -/
def parseArr : Nat → List Char → Option (JVal × List Char)
  | 0, _ => none
  | fuel + 1, cs =>
    match skipWs cs with
    | [] => none
    | c :: rest =>
      if c = ']' then some (.arr [], rest)
      else
        match parseItems fuel (c :: rest) with
        | some (vs, r) => some (.arr vs, r)
        | none => none

/-- Comma-separated array items, allowing a trailing comma. -/
def parseItems : Nat → List Char → Option (List JVal × List Char)
  | 0, _ => none
  | fuel + 1, cs =>
    match parseVal fuel cs with
    | none => none
    | some (v, r) =>
      match skipWs r with
      | [] => none
      | c :: rest =>
        if c = ',' then
          match skipWs rest with
          | ']' :: r2 => some ([v], r2)
          | _ =>
            match parseItems fuel rest with
            | some (vs, r2) => some (v :: vs, r2)
            | none => none
        else if c = ']' then some ([v], rest)
        else none

/-- Object body after the opening brace. -/
def parseObj : Nat → List Char → Option (JVal × List Char)
  | 0, _ => none
  | fuel + 1, cs =>
    match skipWs cs with
    | [] => none
    | c :: rest =>
      if c = '\x7d' then some (.obj [], rest)
      else
        match parseMembers fuel (c :: rest) with
        | some (fs, r) => some (.obj fs, r)
        | none => none

/-- Comma-separated `key : value` members, allowing a trailing comma. -/
def parseMembers : Nat → List Char → Option (JObj × List Char)
  | 0, _ => none
  | fuel + 1, cs =>
    match skipWs cs with
    | [] => none
    | c :: rest =>
      let kr : Option (String × List Char) :=
        if c = '"' then parseStrBody '"' fuel rest
        else if c = squote then parseStrBody squote fuel rest
        else if idChar c then
          some (String.mk (c :: rest.takeWhile idChar), rest.dropWhile idChar)
        else none
      match kr with
      | none => none
      | some (k, r1) =>
        match skipWs r1 with
        | ':' :: r2 =>
          match parseVal fuel r2 with
          | none => none
          | some (v, r3) =>
            match skipWs r3 with
            | ',' :: r4 =>
              match skipWs r4 with
              | '\x7d' :: r5 => some ([(k, v)], r5)
              | _ =>
                match parseMembers fuel r4 with
                | some (fs, r5) => some ((k, v) :: fs, r5)
                | none => none
            | '\x7d' :: r4 => some ([(k, v)], r4)
            | _ => none
        | _ => none

end

/-- `json5.loads` on a string: parse one value and require only trailing
whitespace after it; `none` models the raised parse error. -/
def json5_loads (s : String) : Option JVal :=
  match parseVal (2 * s.length + 4) s.data with
  | some (v, rest) => if (skipWs rest).isEmpty then some v else none
  | none => none

example :
    json5_loads "\x7b\"descriptive\": true, \"evaluation\": \"ok\", \"recommendations\": []\x7d"
      = some (.obj [("descriptive", .bool true), ("evaluation", .str "ok"),
          ("recommendations", .arr [])]) := by rfl

example : json5_loads "\x7b\"elements\": [\x7b\"descriptive\": true\x7d" = none := by rfl

example : json5_loads "\x7b\"evaluation\": \"ok\"\x7d"
    = some (.obj [("evaluation", .str "ok")]) := by rfl

example : json5_loads "\x7bdescriptive: true, evaluation: 'ok', recommendations: [\"a\",],\x7d"
    = some (.obj [("descriptive", .bool true), ("evaluation", .str "ok"),
        ("recommendations", .arr [.str "a"])]) := by rfl

example : json5_loads "not json" = none := by rfl

/-! ## `analyze_elements` (source lines 417-572) -/

/-- The fields of one `all_elements` entry read by the response
processing. -/
structure ElementData where
  type : String
  text : String
  element_xpath : String
deriving DecidableEq

/-- The outcome of one judgment request: the reply text, or the message of
the exception the request raised. -/
inductive ReqOutcome where
  | ok : String → ReqOutcome
  | err : String → ReqOutcome

/-- Python `str.find` for one character (`none` models `-1`). -/
def firstIdx (c : Char) (cs : List Char) : Option Nat :=
  cs.findIdx? (fun d => d = c)

/-- Python `str.rfind` for one character (`none` models `-1`). -/
def lastIdx (c : Char) (cs : List Char) : Option Nat :=
  match cs.reverse.findIdx? (fun d => d = c) with
  | some i => some (cs.length - 1 - i)
  | none => none

example : firstIdx 'b' "abcb".data = some 1 := by rfl
example : lastIdx 'b' "abcb".data = some 3 := by rfl
example : lastIdx 'z' "abcb".data = none := by rfl

/-- The record synthesized when the JSON slice fails to parse (or the
subsequent dict updates raise), source lines 536-546. -/
def synthParseError (e : ElementData) : JObj :=
  [("type", .str e.type), ("text", .str e.text),
   ("element_xpath", .str e.element_xpath),
   ("descriptive", .bool false),
   ("evaluation", .str "分析中にエラーが発生しました"),
   ("recommendations", .arr [.str "再分析を試みてください"])]

/-- The record synthesized when no JSON-looking slice exists in the reply,
source lines 547-557. -/
def synthNoJson (e : ElementData) : JObj :=
  [("type", .str e.type), ("text", .str e.text),
   ("element_xpath", .str e.element_xpath),
   ("descriptive", .bool false),
   ("evaluation", .str "分析結果からJSONを抽出できませんでした"),
   ("recommendations", .arr [.str "再分析を試みてください"])]

/-- The record synthesized when the judgment request itself raises,
source lines 559-569. -/
def synthRequestError (e : ElementData) (msg : String) : JObj :=
  [("type", .str e.type), ("text", .str e.text),
   ("element_xpath", .str e.element_xpath),
   ("descriptive", .bool false),
   ("evaluation",
     .str ("Claudeへのリクエスト中にエラーが発生しました: " ++ msg)),
   ("recommendations", .arr [.str "再分析を試みてください"])]

/-- The success path: the parsed dict with `type`, `text`,
`element_xpath` assigned and `recommendations` defaulted when missing,
source lines 522-533. -/
def successRecord (e : ElementData) (fields : JObj) : JObj :=
  let r1 := dictInsert "type" (.str e.type) fields
  let r2 := dictInsert "text" (.str e.text) r1
  let r3 := dictInsert "element_xpath" (.str e.element_xpath) r2
  if (jget "recommendations" r3).isNone then
    dictInsert "recommendations" (.arr []) r3
  else r3

/-- Processing of one judgment outcome into the appended record, source
lines 493-569: slice the reply from the first `{` to the last `}` (the
Python test `json_start >= 0 and json_end > json_start` with
`json_end = rfind + 1`), parse the slice with `json5.loads`, and fall back
to the synthesized diagnostic records on any failure. -/
def processResponse (e : ElementData) (outcome : ReqOutcome) : JObj :=
  match outcome with
  | .err msg => synthRequestError e msg
  | .ok response_text =>
    match firstIdx '\x7b' response_text.data with
    | none => synthNoJson e
    | some s =>
      match lastIdx '\x7d' response_text.data with
      | none => synthNoJson e
      | some l =>
        if s < l + 1 then
          match json5_loads
              (String.mk ((response_text.data.drop s).take (l + 1 - s))) with
          | some (.obj fields) => successRecord e fields
          | some _ => synthParseError e
          | none => synthParseError e
        else synthNoJson e

/-- `analyze_elements`: each element is judged in turn (`oracle i` is the
outcome of the i-th request) and exactly one record is appended per
element. -/
def analyze_elements (oracle : Nat → ReqOutcome) (els : List ElementData) :
    List JObj :=
  (els.enum).map (fun p => processResponse p.2 (oracle p.1))

/-! ## `check_headings_and_labels` (source lines 574-719) and `main` -/

/-- The heading tag names iterated by `for level in range(1, 7)`. -/
def headingTags : List String := ["h1", "h2", "h3", "h4", "h5", "h6"]

/-- The displayed text of one index entry (`element_text + alt_info`,
source lines 617-628 and 655-668). -/
def entryText (isLabel : Bool) (info : Info) : String :=
  if info.text ≠ "" then info.text
  else if info.alt ≠ "" then info.alt ++ " [alt属性から]"
  else if info.ariaLabel ≠ "" then info.ariaLabel ++ " [aria-label属性から]"
  else if info.ariaLabelledby ≠ "" then
    " [aria-labelledby属性: " ++ info.ariaLabelledby ++ "]"
  else if isLabel && info.forAttr ≠ "" then " [for属性: " ++ info.forAttr ++ "]"
  else ""

/-- The heading entries of the index in run order (outer loop over levels
1..6, inner loop over the index, source lines 612-648);
`heading_count` is its length. -/
def headingEntries (elements : List (String × Info)) : List (String × Info) :=
  headingTags.flatMap (fun t => elements.filter (fun p => p.2.tag == t))

/-- The label entries of the index (source lines 651-692); `label_count`
is its length. -/
def labelEntries (elements : List (String × Info)) : List (String × Info) :=
  elements.filter (fun p => p.2.tag == "label")

/-- `all_elements` (source lines 609-692). -/
def buildAllElements (elements : List (String × Info)) : List ElementData :=
  (headingEntries elements).map (fun p =>
    { type := p.2.tag, text := entryText false p.2, element_xpath := p.1 }) ++
  (labelEntries elements).map (fun p =>
    { type := "label", text := entryText true p.2, element_xpath := p.1 })

/-- A produced compliance report (source lines 703-713). -/
structure Report where
  url : String
  total_elements : Nat
  total_headings : Nat
  total_labels : Nat
  descriptive_elements : Nat
  non_descriptive_elements : Nat
  descriptive_elements_details : List JObj
  non_descriptive_elements_details : List JObj
  wcag_2_4_6_compliant : Bool

/-- What one run of `check_headings_and_labels` looks like to `main`: a
report, `None`, or the `KeyError` escaping from `e['descriptive']`. -/
inductive RunResult where
  | report : Report → RunResult
  | noReport : RunResult
  | keyError : RunResult

/-- `[e for e in analyzed_elements if e['descriptive']]`
(source line 700), given every record carries the key. -/
def descriptive_of (analyzed : List JObj) : List JObj :=
  analyzed.filter (fun e => jTruthy ((jget "descriptive" e).getD .null))

/-- `[e for e in analyzed_elements if not e['descriptive']]`
(source line 701). -/
def non_descriptive_of (analyzed : List JObj) : List JObj :=
  analyzed.filter (fun e => !jTruthy ((jget "descriptive" e).getD .null))

/-- Whether every record carries the `descriptive` key (when not, the
comprehensions of lines 700-701 raise `KeyError`). -/
def descriptiveKeyPresent (analyzed : List JObj) : Bool :=
  analyzed.all (fun e => (jget "descriptive" e).isSome)

/-- `check_headings_and_labels` after the page scan (source lines
608-719): build `all_elements`, judge every element, and assemble the
report; an empty analyzed list falls through the `if analyzed_elements:`
guard and returns `None`. -/
def check_headings_and_labels (elements : List (String × Info))
    (oracle : Nat → ReqOutcome) (url : String) : RunResult :=
  if (analyze_elements oracle (buildAllElements elements)).isEmpty then
    .noReport
  else if descriptiveKeyPresent (analyze_elements oracle (buildAllElements elements)) then
    .report {
      url := url
      total_elements := (buildAllElements elements).length
      total_headings := (headingEntries elements).length
      total_labels := (labelEntries elements).length
      descriptive_elements :=
        (descriptive_of (analyze_elements oracle (buildAllElements elements))).length
      non_descriptive_elements :=
        (non_descriptive_of (analyze_elements oracle (buildAllElements elements))).length
      descriptive_elements_details :=
        descriptive_of (analyze_elements oracle (buildAllElements elements))
      non_descriptive_elements_details :=
        non_descriptive_of (analyze_elements oracle (buildAllElements elements))
      wcag_2_4_6_compliant :=
        (non_descriptive_of (analyze_elements oracle (buildAllElements elements))).length == 0 }
  else .keyError

/-- `main` (source lines 759-774): a produced report is printed (exit 0);
a `None` report prints an error and exits 1; an escaping exception is
caught and exits 1. -/
def mainExitCode : RunResult → Nat
  | .report _ => 0
  | .noReport => 1
  | .keyError => 1

/-! ## Claims C2, C3, C4, C5, C10 -/

lemma length_filter_partition (l : List JObj) (p : JObj → Bool) :
    (l.filter p).length + (l.filter (fun x => !p x)).length = l.length :=
  (List.length_eq_length_filter_add p).symm

lemma analyze_elements_length (oracle : Nat → ReqOutcome) (els : List ElementData) :
    (analyze_elements oracle els).length = els.length := by
  simp [analyze_elements]

lemma processResponse_ok (e : ElementData) (resp : String) :
    processResponse e (.ok resp) =
      match firstIdx '\x7b' resp.data with
      | none => synthNoJson e
      | some s =>
        match lastIdx '\x7d' resp.data with
        | none => synthNoJson e
        | some l =>
          if s < l + 1 then
            match json5_loads (String.mk ((resp.data.drop s).take (l + 1 - s))) with
            | some (.obj fields) => successRecord e fields
            | some _ => synthParseError e
            | none => synthParseError e
          else synthNoJson e := rfl

/-- C5: every produced report satisfies
`descriptive_elements + non_descriptive_elements = total_elements` and
`wcag_2_4_6_compliant = (non_descriptive_elements == 0)`. -/
theorem C5_report_invariant (elements : List (String × Info))
    (oracle : Nat → ReqOutcome) (url : String) (r : Report)
    (h : check_headings_and_labels elements oracle url = .report r) :
    r.descriptive_elements + r.non_descriptive_elements = r.total_elements ∧
    r.wcag_2_4_6_compliant = (r.non_descriptive_elements == 0) := by
  unfold check_headings_and_labels at h
  split at h
  · simp at h
  · split at h
    · injection h with h'
      subst h'
      refine ⟨?_, rfl⟩
      show (descriptive_of _).length + (non_descriptive_of _).length = _
      rw [descriptive_of, non_descriptive_of, length_filter_partition,
        analyze_elements_length]
    · simp at h

/-- The single-element index used to exercise the report invariant. -/
def c5Elements : List (String × Info) :=
  [("//*[@id=\"m\"]",
    { tag := "h1", id := "m", text := "Welcome", xpath := "//*[@id=\"m\"]",
      alt := "", ariaLabel := "", ariaLabelledby := "", forAttr := "" })]

/-- A well-formed judgment reply for the C5 witness run. -/
def c5Oracle : Nat → ReqOutcome := fun _ =>
  .ok "\x7b\"descriptive\": true, \"evaluation\": \"ok\", \"recommendations\": []\x7d"

theorem C5_report_invariant_witness :
    ∃ r, check_headings_and_labels c5Elements c5Oracle "http://example.com" = .report r ∧
      r.descriptive_elements + r.non_descriptive_elements = r.total_elements ∧
      r.wcag_2_4_6_compliant = (r.non_descriptive_elements == 0) := by
  obtain ⟨r, hr⟩ :
      ∃ r, check_headings_and_labels c5Elements c5Oracle "http://example.com" = .report r :=
    ⟨_, rfl⟩
  exact ⟨r, hr, C5_report_invariant c5Elements c5Oracle "http://example.com" r hr⟩

/-- C4: the structured-response recovery is total and per-element
processing always continues — the analyzed list holds exactly one record
per element, and every outcome yields either the success record of a
parsed object or one of the three synthesized failure records, each of
which carries `descriptive: false`. -/
theorem C4_recovery_never_raises (oracle : Nat → ReqOutcome)
    (els : List ElementData) :
    (analyze_elements oracle els).length = els.length ∧
    ∀ (e : ElementData) (outcome : ReqOutcome),
      (∃ fields, processResponse e outcome = successRecord e fields) ∨
      (((∃ msg, processResponse e outcome = synthRequestError e msg) ∨
          processResponse e outcome = synthParseError e ∨
          processResponse e outcome = synthNoJson e) ∧
        jget "descriptive" (processResponse e outcome) = some (.bool false)) := by
  refine ⟨analyze_elements_length oracle els, ?_⟩
  intro e outcome
  match outcome with
  | .err msg => exact Or.inr ⟨Or.inl ⟨msg, rfl⟩, rfl⟩
  | .ok resp =>
    rw [processResponse_ok]
    cases hf : firstIdx '\x7b' resp.data with
    | none =>
      exact Or.inr ⟨Or.inr (Or.inr rfl), rfl⟩
    | some s =>
      cases hl : lastIdx '\x7d' resp.data with
      | none =>
        exact Or.inr ⟨Or.inr (Or.inr rfl), rfl⟩
      | some l =>
        dsimp only
        by_cases hsl : s < l + 1
        · rw [if_pos hsl]
          cases hp : json5_loads (String.mk ((resp.data.drop s).take (l + 1 - s))) with
          | none => exact Or.inr ⟨Or.inr (Or.inl rfl), rfl⟩
          | some v =>
            cases v with
            | obj fields => exact Or.inl ⟨fields, rfl⟩
            | null => exact Or.inr ⟨Or.inr (Or.inl rfl), rfl⟩
            | bool b => exact Or.inr ⟨Or.inr (Or.inl rfl), rfl⟩
            | num n => exact Or.inr ⟨Or.inr (Or.inl rfl), rfl⟩
            | str s' => exact Or.inr ⟨Or.inr (Or.inl rfl), rfl⟩
            | arr xs => exact Or.inr ⟨Or.inr (Or.inl rfl), rfl⟩
        · rw [if_neg hsl]
          exact Or.inr ⟨Or.inr (Or.inr rfl), rfl⟩

/-- The element record used as the C2 failing input. -/
def c2Element : ElementData :=
  { type := "h1", text := "Welcome", element_xpath := "//*[@id=\"main\"]" }

/-- The index for the C2 failing run. -/
def c2Elements : List (String × Info) :=
  [("//*[@id=\"main\"]",
    { tag := "h1", id := "main", text := "Welcome", xpath := "//*[@id=\"main\"]",
      alt := "", ariaLabel := "", ariaLabelledby := "", forAttr := "" })]

/-- A syntactically valid judgment reply that omits `descriptive`. -/
def c2Oracle : Nat → ReqOutcome := fun _ => .ok "\x7b\"evaluation\": \"ok\"\x7d"

/-- C2 (code bug): a parseable judgment reply that merely omits the
`descriptive` field is appended without the key — only `recommendations`
is defaulted (source lines 529-531) — and the report-building
comprehension `[e for e in analyzed_elements if e['descriptive']]` then
raises `KeyError`, aborting the run with exit status 1.  No
`descriptive = false` record is synthesized, contradicting the claim
that the field is never omitted. -/
theorem C2_descriptive_can_be_omitted :
    jget "descriptive" (processResponse c2Element (.ok "\x7b\"evaluation\": \"ok\"\x7d")) = none ∧
    check_headings_and_labels c2Elements c2Oracle "http://example.com" = .keyError ∧
    mainExitCode (check_headings_and_labels c2Elements c2Oracle "http://example.com") = 1 :=
  ⟨rfl, rfl, rfl⟩

/-- Modelled from the spec (§4.5 step 3), for comparison only: the repair
the claim describes — truncate the text at the last closing brace, cut a
dangling incomplete entry at the last comma when that comma follows the
last quote character, append the closing sequence `]}`, and re-attempt the
parse. -/
def spec_repair (s : String) : String :=
  let cs := s.data
  let t :=
    match lastIdx '\x7d' cs with
    | some l => cs.take (l + 1)
    | none => cs
  let t2 :=
    match lastIdx ',' t, lastIdx '"' t with
    | some c, some q => if q < c then t.take c else t
    | some c, none => t.take c
    | _, _ => t
  String.mk (t2 ++ [']', '\x7d'])

/-- A truncated judgment reply: two opening braces, one closing brace. -/
def c3Resp : String := "\x7b\"elements\": [\x7b\"descriptive\": true\x7d"

/-- The element record used in the C3 counterexample. -/
def c3Element : ElementData :=
  { type := "h1", text := "X", element_xpath := "/html/body/h1" }

/-- C3 (counterexample): a truncated reply (more opening than closing
braces) whose spec-described repair parses successfully, yet the code
produces the generic synthesized parse-failure record: the source applies
no repair — no comma cut, no appended closing sequence, no typed
`UnrecoverableTruncation` — it only slices from the first `{` to the last
`}` and makes a single `json5` parse attempt (source lines 513-546). -/
theorem C3_counterexample :
    (c3Resp.data.filter (fun c => c = '\x7b')).length >
      (c3Resp.data.filter (fun c => c = '\x7d')).length ∧
    (json5_loads (spec_repair c3Resp)).isSome = true ∧
    processResponse c3Element (.ok c3Resp) = synthParseError c3Element :=
  ⟨by decide, rfl, rfl⟩

/-- C3 (amended): when the reply contains a first opening brace at index
`s` and a last closing brace at index `l` with `s < l + 1`, the recovery
only parses the slice `[s, l+1)`; if that single parse fails, the
synthesized `descriptive = false` diagnostic record is produced — there
is no brace repair and no `UnrecoverableTruncation` error. -/
theorem C3_amended_no_repair (e : ElementData) (resp : String) (s l : Nat)
    (hf : firstIdx '\x7b' resp.data = some s)
    (hl : lastIdx '\x7d' resp.data = some l)
    (hsl : s < l + 1)
    (hparse : json5_loads (String.mk ((resp.data.drop s).take (l + 1 - s))) = none) :
    processResponse e (.ok resp) = synthParseError e := by
  rw [processResponse_ok, hf]
  show (match lastIdx '\x7d' resp.data with
    | none => synthNoJson e
    | some l =>
      if s < l + 1 then
        match json5_loads (String.mk ((resp.data.drop s).take (l + 1 - s))) with
        | some (.obj fields) => successRecord e fields
        | some _ => synthParseError e
        | none => synthParseError e
      else synthNoJson e) = synthParseError e
  rw [hl]
  show (if s < l + 1 then
      match json5_loads (String.mk ((resp.data.drop s).take (l + 1 - s))) with
      | some (.obj fields) => successRecord e fields
      | some _ => synthParseError e
      | none => synthParseError e
    else synthNoJson e) = synthParseError e
  rw [if_pos hsl, hparse]

theorem C3_amended_no_repair_witness :
    processResponse c3Element (.ok "prose \x7b\"a\": [1, \x7d more") =
      synthParseError c3Element :=
  C3_amended_no_repair c3Element "prose \x7b\"a\": [1, \x7d more" _ _
    rfl rfl (by decide) rfl

/-- C10: when the index holds no heading or label entries, the analyzed
list is empty, `check_headings_and_labels` falls through the
`if analyzed_elements:` guard returning `None`, and `main` exits with
status 1. -/
theorem C10_empty_page_no_report (elements : List (String × Info))
    (oracle : Nat → ReqOutcome) (url : String)
    (h : ∀ p ∈ elements, p.2.tag ∉ headingTags ∧ p.2.tag ≠ "label") :
    check_headings_and_labels elements oracle url = .noReport ∧
    mainExitCode (check_headings_and_labels elements oracle url) = 1 := by
  have hh : headingEntries elements = [] := by
    unfold headingEntries
    rw [List.flatMap_eq_nil_iff]
    intro t ht
    rw [List.filter_eq_nil_iff]
    intro p hp
    simp only [beq_iff_eq]
    intro hcontra
    exact (h p hp).1 (hcontra ▸ ht)
  have hl : labelEntries elements = [] := by
    unfold labelEntries
    rw [List.filter_eq_nil_iff]
    intro p hp
    simp only [beq_iff_eq]
    exact (h p hp).2
  have hall : buildAllElements elements = [] := by
    rw [buildAllElements, hh, hl]
    rfl
  have hana : analyze_elements oracle (buildAllElements elements) = [] := by
    rw [hall]
    rfl
  have hres : check_headings_and_labels elements oracle url = .noReport := by
    unfold check_headings_and_labels
    rw [hana]
    rfl
  exact ⟨hres, by rw [hres]; rfl⟩

theorem C10_empty_page_no_report_witness :
    check_headings_and_labels [] (fun _ => .ok "") "http://example.com" = .noReport ∧
    mainExitCode (check_headings_and_labels [] (fun _ => .ok "") "http://example.com") = 1 :=
  C10_empty_page_no_report [] (fun _ => .ok "") "http://example.com" (by simp)

/-! ## DOM model for the browser-side reads of `get_page_content` -/

/-- The attribute values the code reads from one live DOM element.  The
three text reads (`element.text`, `innerText`, `textContent`) are browser
render outputs and are carried as data; empty string models an absent
attribute (every read in the source tests truthiness, for which both
behave identically). -/
structure ElAttrs where
  tag : String
  id : String
  visText : String
  innerText : String
  textContent : String
  alt : String
  ariaLabel : String
  ariaLabelledby : String
  forAttr : String
  placeholder : String

/-- A rendered DOM subtree. -/
inductive DomNode where
  | mk : ElAttrs → List DomNode → DomNode

def DomNode.attrs : DomNode → ElAttrs
  | .mk a _ => a

def DomNode.children : DomNode → List DomNode
  | .mk _ cs => cs

/-- Document-order (pre-order) traversal. -/
def preorder : DomNode → List DomNode
  | .mk a cs => .mk a cs :: (cs.attach.map (fun c => preorder c.1)).flatten
termination_by n => sizeOf n
decreasing_by
  simp_wf
  have h := List.sizeOf_lt_of_mem c.2
  omega

lemma preorder_eq (a : ElAttrs) (cs : List DomNode) :
    preorder (.mk a cs) = .mk a cs :: (cs.map preorder).flatten := by
  rw [preorder]
  congr 1
  congr 1
  exact List.attach_map_coe _ _

/-- `driver.find_element(By.ID, i)`: the first element in document order
with the given id; `none` models the raised `NoSuchElementException`. -/
def findById (root : DomNode) (i : String) : Option DomNode :=
  (preorder root).find? (fun n => n.attrs.id == i)

/-- `element.find_elements(By.TAG_NAME, 'img')`: descendant images in
document order. -/
def descendantImgs (n : DomNode) : List DomNode :=
  ((n.children.map preorder).flatten).filter (fun m => m.attrs.tag == "img")

/-! ## The injected `getXPath` routine (source lines 131-149 / 213-231) -/

/-- The locator string the JavaScript returns, in structured form: the
id shortcut `//*[@id="..."]` or a `/html/body/...` path of
`(tag, optional 1-based sibling index)` segments. -/
inductive Locator where
  | byId : String → Locator
  | path : List (String × Option Nat) → Locator
deriving DecidableEq

/-- The literal XPath string of a locator. -/
def Locator.render : Locator → String
  | .byId i => "//*[@id=\"" ++ i ++ "\"]"
  | .path segs =>
    "/html/body" ++ String.join (segs.map (fun sg =>
      "/" ++ sg.1 ++
        (match sg.2 with
         | some k => "[" ++ toString k ++ "]"
         | none => "")))

/-- The node at a child-index path below `body` (`body` itself at `[]`). -/
def nodeAt : DomNode → List Nat → Option DomNode
  | n, [] => some n
  | n, i :: is =>
    match n.children[i]? with
    | some c => nodeAt c is
    | none => none

/-- The `(tag, index)` segments the `getXPath` while-loop emits for the
node at path `p`: at each level the 1-based rank of the element among
same-tag siblings, omitted when it is the only child of its tag
(`siblings.length > 1 ? [index] : ''`). -/
def xpathSegs : DomNode → List Nat → Option (List (String × Option Nat))
  | _, [] => some []
  | n, i :: is =>
    match n.children[i]? with
    | none => none
    | some c =>
      match xpathSegs c is with
      | some segs =>
        some ((c.attrs.tag,
          if (n.children.filter (fun s => s.attrs.tag == c.attrs.tag)).length > 1 then
            some ((n.children.take i).countP (fun s => s.attrs.tag == c.attrs.tag) + 1)
          else none) :: segs)
      | none => none

/-- The injected `getXPath`: an element with a non-empty `id` returns the
`byId` shortcut immediately; otherwise the walk up to `document.body`
yields the tag+index path (the path is empty when the element is the body
itself, rendering `/html/body`). -/
def getXPath (body : DomNode) (p : List Nat) : Option Locator :=
  match nodeAt body p with
  | none => none
  | some el =>
    if el.attrs.id ≠ "" then some (.byId el.attrs.id)
    else
      match xpathSegs body p with
      | some segs => some (.path segs)
      | none => none

/-- Walk a path locator's segments down from `body`. -/
def resolvePath : DomNode → List (String × Option Nat) → Option DomNode
  | n, [] => some n
  | n, (t, oi) :: rest =>
    match oi with
    | none =>
      match n.children.filter (fun s => s.attrs.tag == t) with
      | [c] => resolvePath c rest
      | _ => none
    | some k =>
      match (n.children.filter (fun s => s.attrs.tag == t))[k - 1]? with
      | some c => resolvePath c rest
      | none => none

/-- Modelled from the spec (§3 `Locator` invariant: "applying the locator
to the original DOM must resolve to exactly the element it was built
from"; re-resolution is not performed anywhere in the source):
`byId` resolves like a document id lookup — the first match in document
order — and a path locator walks its tag+index segments down from
`body`. -/
def resolveLocator (body : DomNode) : Locator → Option DomNode
  | .byId i => findById body i
  | .path segs => resolvePath body segs

/-! ## The element text-resolution chains of `get_page_content` -/

/-- Python `max([a, b, c], key=len)`: the earliest string of maximal
length. -/
def maxByLen (a b c : String) : String :=
  if b.length > a.length then
    (if c.length > b.length then c else b)
  else
    (if c.length > a.length then c else a)

/-- The direct text sources: the longest of the normalized
`element.text`, `innerText` and `textContent` reads
(source lines 154-159 / 236-241). -/
def directText (el : DomNode) : String :=
  maxByLen (normalize_text el.attrs.visText) (normalize_text el.attrs.innerText)
    (normalize_text el.attrs.textContent)

/-- The `if/elif` fallback chain of the label extractor on raw attribute
presence (source lines 244-269): `alt`, then `aria-label`, then the text
of the element the `aria-labelledby` id resolves to, then the
`placeholder` of the element the `for` id resolves to.  Exactly one
branch is chosen by attribute presence; a failed id lookup inside the
chosen branch yields the empty string (`except: pass`). -/
def labelAttrChain (doc el : DomNode) : String :=
  if el.attrs.alt ≠ "" then normalize_text el.attrs.alt
  else if el.attrs.ariaLabel ≠ "" then normalize_text el.attrs.ariaLabel
  else if el.attrs.ariaLabelledby ≠ "" then
    (match findById doc el.attrs.ariaLabelledby with
     | some t => normalize_text t.attrs.visText
     | none => "")
  else if el.attrs.forAttr ≠ "" then
    (match findById doc el.attrs.forAttr with
     | some t =>
       if t.attrs.placeholder ≠ "" then normalize_text t.attrs.placeholder else ""
     | none => "")
  else ""

/-- The heading extractor's chain (source lines 161-177) — identical but
without the `for` branch. -/
def headingAttrChain (doc el : DomNode) : String :=
  if el.attrs.alt ≠ "" then normalize_text el.attrs.alt
  else if el.attrs.ariaLabel ≠ "" then normalize_text el.attrs.ariaLabel
  else if el.attrs.ariaLabelledby ≠ "" then
    (match findById doc el.attrs.ariaLabelledby with
     | some t => normalize_text t.attrs.visText
     | none => "")
  else ""

/-- The final image fallback (source lines 179-189 / 271-281): the first
descendant `img` with a truthy raw `alt` contributes its normalized
`alt`. -/
def imgAltScan (el : DomNode) : String :=
  match (descendantImgs el).find? (fun i => i.attrs.alt != "") with
  | some i => normalize_text i.attrs.alt
  | none => ""

/-- The complete label text resolution (source lines 236-281): direct
text; when empty, the attribute chain; when that is also empty, the
descendant-image fallback. -/
def extractLabelText (doc el : DomNode) : String :=
  if directText el ≠ "" then directText el
  else if labelAttrChain doc el ≠ "" then labelAttrChain doc el
  else imgAltScan el

/-- The complete heading text resolution (source lines 154-189). -/
def extractHeadingText (doc el : DomNode) : String :=
  if directText el ≠ "" then directText el
  else if headingAttrChain doc el ≠ "" then headingAttrChain doc el
  else imgAltScan el

/-! ## Claims C7 and C8 -/

lemma find?_eq_some_of_unique {α : Type} (p : α → Bool) (l : List α) (x : α)
    (hx : x ∈ l) (hpx : p x = true) (huniq : ∀ y ∈ l, p y = true → y = x) :
    l.find? p = some x := by
  induction l with
  | nil => simp at hx
  | cons a l ih =>
    by_cases ha : p a = true
    · have hax : a = x := huniq a (List.mem_cons_self _ _) ha
      subst hax
      exact List.find?_cons_of_pos _ ha
    · rw [List.find?_cons_of_neg _ ha]
      rcases List.mem_cons.mp hx with rfl | hx'
      · exact absurd hpx ha
      · exact ih hx' (fun y hy hpy => huniq y (List.mem_cons_of_mem _ hy) hpy)

lemma nodeAt_mem_preorder : ∀ (p : List Nat) (n el : DomNode),
    nodeAt n p = some el → el ∈ preorder n := by
  intro p
  induction p with
  | nil =>
    intro n el h
    simp only [nodeAt, Option.some.injEq] at h
    subst h
    cases n with
    | mk a cs =>
      rw [preorder_eq]
      exact List.mem_cons_self _ _
  | cons i is ih =>
    intro n el h
    cases n with
    | mk a cs =>
      simp only [nodeAt] at h
      cases hc : (DomNode.mk a cs).children[i]? with
      | none =>
        simp only [hc] at h
        exact Option.noConfusion h
      | some c =>
        simp only [hc] at h
        have hel := ih c el h
        have hcmem : c ∈ cs := by
          have hmem := List.getElem?_mem hc
          simpa [DomNode.children] using hmem
        rw [preorder_eq]
        refine List.mem_cons_of_mem _ ?_
        rw [List.mem_flatten]
        exact ⟨preorder c, List.mem_map_of_mem _ hcmem, hel⟩

/-- C7 (amended): for a live element with a non-empty id, `getXPath`
returns the `byId` shortcut, and re-resolving that locator against the
same DOM yields the first element in document order carrying that id —
which is the original element precisely when no other element shares the
id. -/
theorem C7_byId_locator (body : DomNode) (p : List Nat) (el : DomNode)
    (hel : nodeAt body p = some el) (hid : el.attrs.id ≠ "")
    (huniq : ∀ n ∈ preorder body, n.attrs.id = el.attrs.id → n = el) :
    getXPath body p = some (.byId el.attrs.id) ∧
    resolveLocator body (.byId el.attrs.id) = some el := by
  constructor
  · unfold getXPath
    rw [hel]
    show (if el.attrs.id ≠ "" then some (Locator.byId el.attrs.id)
      else match xpathSegs body p with
        | some segs => some (.path segs)
        | none => none) = some (.byId el.attrs.id)
    rw [if_pos hid]
  · show findById body el.attrs.id = some el
    unfold findById
    apply find?_eq_some_of_unique _ _ el (nodeAt_mem_preorder p body el hel)
    · simp
    · intro y hy hpy
      exact huniq y hy (by simpa using hpy)

/-- All-empty attribute record except tag and id. -/
def mkAttrs (t i : String) : ElAttrs :=
  { tag := t, id := i, visText := "", innerText := "", textContent := "",
    alt := "", ariaLabel := "", ariaLabelledby := "", forAttr := "",
    placeholder := "" }

def c7E1 : DomNode := .mk (mkAttrs "div" "x") []

def c7E2 : DomNode := .mk (mkAttrs "span" "x") []

def c7Body : DomNode := .mk (mkAttrs "body" "") [c7E1, c7E2]

/-- C7 (counterexample): two elements share the id `x`.  The second one
gets the `byId` locator, but re-resolving that locator yields the *first*
element with that id, not the original — so the claim's universally
quantified round-trip property fails on DOMs with duplicate ids. -/
theorem C7_counterexample :
    nodeAt c7Body [1] = some c7E2 ∧
    c7E2.attrs.id = "x" ∧
    getXPath c7Body [1] = some (.byId "x") ∧
    resolveLocator c7Body (.byId "x") = some c7E1 ∧
    c7E1 ≠ c7E2 := by
  refine ⟨rfl, rfl, rfl, ?_, ?_⟩
  · show findById c7Body "x" = some c7E1
    simp only [findById, c7Body, c7E1, c7E2, preorder_eq, List.map_cons,
      List.map_nil, List.flatten]
    rfl
  · intro h
    simp only [c7E1, c7E2, DomNode.mk.injEq] at h
    simp [mkAttrs] at h

def w7El : DomNode :=
  .mk
    { (mkAttrs "h1" "m") with
        visText := "Welcome",
        innerText := "Welcome",
        textContent := "Welcome" } []

def w7Body : DomNode := .mk (mkAttrs "body" "") [w7El]

theorem C7_byId_locator_witness :
    getXPath w7Body [0] = some (.byId "m") ∧
    resolveLocator w7Body (.byId "m") = some w7El := by
  refine C7_byId_locator w7Body [0] w7El rfl (by decide) ?_
  intro n hn hid
  simp only [w7Body, w7El, preorder_eq, List.map_cons, List.map_nil,
    List.flatten, List.cons_append, List.nil_append, List.mem_cons,
    List.not_mem_nil, or_false, List.mem_singleton] at hn
  rcases hn with rfl | rfl
  · exact absurd (by simpa [DomNode.attrs, mkAttrs] using hid) (by decide)
  · rfl

/-- C8 (amended): when the direct text sources are empty, `alt` and
`aria-label` are absent, and `aria-labelledby` is present but its id does
not resolve, the label's text resolution skips the `for`/`placeholder`
step entirely (the `elif` chain dispatches on attribute presence, not on
the text a step yields) and continues only to the descendant-image
fallback. -/
theorem C8_unresolved_labelledby_skips_for (doc el : DomNode)
    (hdir : directText el = "")
    (halt : el.attrs.alt = "")
    (haria : el.attrs.ariaLabel = "")
    (hlb : el.attrs.ariaLabelledby ≠ "")
    (hresolve : findById doc el.attrs.ariaLabelledby = none) :
    extractLabelText doc el = imgAltScan el := by
  have hchain : labelAttrChain doc el = "" := by
    unfold labelAttrChain
    rw [if_neg (by simp [halt]), if_neg (by simp [haria]), if_pos hlb, hresolve]
  unfold extractLabelText
  rw [hdir, hchain]
  simp

def c8Label : DomNode :=
  .mk
    { (mkAttrs "label" "") with
        ariaLabelledby := "missing",
        forAttr := "email" } []

def c8Input : DomNode :=
  .mk { (mkAttrs "input" "email") with placeholder := "Your email" } []

def c8Doc : DomNode := .mk (mkAttrs "body" "") [c8Label, c8Input]

/-- C8 (counterexample): all direct text sources, `alt` and `aria-label`
are empty, `aria-labelledby="missing"` does not resolve, and the `for`
target exists with placeholder `Your email` — yet resolution yields the
empty string: the `elif for_attr` branch is never reached once the
`aria-labelledby` branch was chosen, contradicting the claim that
resolution continues to the placeholder step. -/
theorem C8_counterexample :
    directText c8Label = "" ∧
    c8Label.attrs.alt = "" ∧
    c8Label.attrs.ariaLabel = "" ∧
    c8Label.attrs.ariaLabelledby = "missing" ∧
    findById c8Doc "missing" = none ∧
    c8Label.attrs.forAttr = "email" ∧
    findById c8Doc "email" = some c8Input ∧
    c8Input.attrs.placeholder = "Your email" ∧
    extractLabelText c8Doc c8Label = "" ∧
    normalize_text "Your email" ≠ "" := by
  have hmiss : findById c8Doc "missing" = none := by
    simp only [findById, c8Doc, c8Label, c8Input, preorder_eq, List.map_cons,
      List.map_nil, List.flatten]
    rfl
  have harg : c8Label.attrs.ariaLabelledby = "missing" := rfl
  have hchain : labelAttrChain c8Doc c8Label = "" := by
    unfold labelAttrChain
    rw [if_neg (by decide), if_neg (by decide), if_pos (by decide), harg, hmiss]
  have hext : extractLabelText c8Doc c8Label = "" := by
    unfold extractLabelText
    rw [hchain]
    rw [if_neg (by decide), if_neg (by simp)]
    rfl
  refine ⟨rfl, rfl, rfl, rfl, hmiss, rfl, ?_, rfl, hext, by decide⟩
  simp only [findById, c8Doc, c8Label, c8Input, preorder_eq, List.map_cons,
    List.map_nil, List.flatten]
  rfl

def w8Img : DomNode := .mk { (mkAttrs "img" "") with alt := "Search icon" } []

def w8Label : DomNode :=
  .mk { (mkAttrs "label" "") with ariaLabelledby := "gone" } [w8Img]

def w8Doc : DomNode := .mk (mkAttrs "body" "") [w8Label]

theorem C8_unresolved_labelledby_skips_for_witness :
    extractLabelText w8Doc w8Label = "Search icon" := by
  have hres : findById w8Doc w8Label.attrs.ariaLabelledby = none := by
    rw [show w8Label.attrs.ariaLabelledby = "gone" from rfl]
    simp only [findById, w8Doc, w8Label, w8Img, preorder_eq, List.map_cons,
      List.map_nil, List.flatten]
    rfl
  rw [C8_unresolved_labelledby_skips_for w8Doc w8Label rfl rfl rfl
    (by decide) hres]
  simp only [imgAltScan, descendantImgs, w8Label, w8Img, preorder_eq,
    List.map_cons, List.map_nil, List.flatten, DomNode.children]
  rfl

/-! ## Claim C9: the live-element index is a dict keyed by the locator -/

/-- Python-dict assignment for the element index
(`elements[xpath] = {...}`, source lines 192-200 / 284-293): replace in
place when the key exists, else append, preserving first-insertion
order. -/
def dictUpd (k : String) (v : Info) :
    List (String × Info) → List (String × Info)
  | [] => [(k, v)]
  | (k', v') :: rest =>
    if k' = k then (k, v) :: rest else (k', v') :: dictUpd k v rest

/-- The index after the page scan writes the sequence `ws` of
`(locator string, descriptor)` pairs in encounter order. -/
def buildIndex (ws : List (String × Info)) : List (String × Info) :=
  ws.foldl (fun d kv => dictUpd kv.1 kv.2 d) []

/-- The distinct locator strings of a write sequence, in first-occurrence
order (the key order the dict ends up with). -/
def distinctKeys : List (String × Info) → List String
  | [] => []
  | (k, _) :: ws => k :: (distinctKeys ws).filter (fun q => q != k)

/-- The last descriptor written for key `k`. -/
def lastWrite : List (String × Info) → String → Option Info
  | [], _ => none
  | (a, w) :: rest, k =>
    match lastWrite rest k with
    | some u => some u
    | none => if a = k then some w else none

/-- Dummy descriptor for `Option.getD`. -/
def infoDefault : Info :=
  { tag := "", id := "", text := "", xpath := "", alt := "", ariaLabel := "",
    ariaLabelledby := "", forAttr := "" }

/-- The last descriptor written for a key that occurs in the sequence. -/
def lastWriteD (ws : List (String × Info)) (k : String) : Info :=
  (lastWrite ws k).getD infoDefault

lemma buildIndex_snoc (ws : List (String × Info)) (k : String) (v : Info) :
    buildIndex (ws ++ [(k, v)]) = dictUpd k v (buildIndex ws) := by
  simp [buildIndex, List.foldl_append]

lemma lastWrite_snoc (ws : List (String × Info)) (k q : String) (v : Info) :
    lastWrite (ws ++ [(k, v)]) q = if q = k then some v else lastWrite ws q := by
  induction ws with
  | nil =>
    show (match lastWrite [] q with
      | some u => some u
      | none => if k = q then some v else none) = _
    by_cases h : q = k
    · subst h
      simp [lastWrite]
    · have h' : ¬(k = q) := fun hh => h hh.symm
      simp [lastWrite, h, h']
  | cons a ws ih =>
    obtain ⟨a1, a2⟩ := a
    show (match lastWrite (ws ++ [(k, v)]) q with
      | some u => some u
      | none => if a1 = q then some a2 else none) = _
    rw [ih]
    by_cases h : q = k
    · simp [h]
    · rw [if_neg h, if_neg h]
      rfl

lemma mem_distinctKeys (ws : List (String × Info)) (k : String) :
    k ∈ distinctKeys ws ↔ k ∈ ws.map Prod.fst := by
  induction ws with
  | nil => simp [distinctKeys]
  | cons a ws ih =>
    obtain ⟨a1, a2⟩ := a
    simp only [distinctKeys, List.map_cons, List.mem_cons, List.mem_filter,
      bne_iff_ne, ne_eq]
    constructor
    · rintro (rfl | ⟨h1, _⟩)
      · exact Or.inl rfl
      · exact Or.inr (ih.mp h1)
    · rintro (rfl | h)
      · exact Or.inl rfl
      · by_cases hk : k = a1
        · exact Or.inl hk
        · exact Or.inr ⟨ih.mpr h, hk⟩

lemma distinctKeys_snoc (ws : List (String × Info)) (k : String) (v : Info) :
    distinctKeys (ws ++ [(k, v)]) =
      if k ∈ distinctKeys ws then distinctKeys ws
      else distinctKeys ws ++ [k] := by
  induction ws with
  | nil => simp [distinctKeys]
  | cons a ws ih =>
    obtain ⟨a1, a2⟩ := a
    show a1 :: (distinctKeys (ws ++ [(k, v)])).filter (fun q => q != a1) = _
    rw [ih]
    by_cases hmem : k ∈ distinctKeys ws
    · rw [if_pos hmem]
      have hc : k ∈ distinctKeys ((a1, a2) :: ws) := by
        rw [mem_distinctKeys] at hmem ⊢
        exact List.mem_cons_of_mem _ hmem
      rw [if_pos hc]
      rfl
    · rw [if_neg hmem, List.filter_append]
      by_cases hk : k = a1
      · subst hk
        have hc : k ∈ distinctKeys ((k, a2) :: ws) := by
          show k ∈ k :: _
          exact List.mem_cons_self _ _
        rw [if_pos hc]
        show k :: ((distinctKeys ws).filter _ ++ [k].filter (fun q => q != k)) = _
        simp [distinctKeys]
      · have hc : k ∉ distinctKeys ((a1, a2) :: ws) := by
          intro hcon
          rcases List.mem_cons.mp hcon with rfl | hcon'
          · exact hk rfl
          · exact hmem ((List.mem_filter.mp hcon').1)
        rw [if_neg hc]
        have hfk : [k].filter (fun q => q != a1) = [k] := by simp [hk]
        rw [hfk]
        show a1 :: ((distinctKeys ws).filter (fun q => q != a1) ++ [k]) =
          (a1 :: (distinctKeys ws).filter (fun q => q != a1)) ++ [k]
        simp

lemma distinctKeys_nodup (ws : List (String × Info)) : (distinctKeys ws).Nodup := by
  induction ws with
  | nil => simp [distinctKeys]
  | cons a ws ih =>
    obtain ⟨a1, a2⟩ := a
    show (a1 :: (distinctKeys ws).filter (fun q => q != a1)).Nodup
    rw [List.nodup_cons]
    refine ⟨?_, ih.filter _⟩
    intro hmem
    have := (List.mem_filter.mp hmem).2
    simp at this

lemma dictUpd_map_of_not_mem (k : String) (v : Info) (ks : List String)
    (f : String → Info) (hk : k ∉ ks) :
    dictUpd k v (ks.map (fun q => (q, f q))) =
      ks.map (fun q => (q, f q)) ++ [(k, v)] := by
  induction ks with
  | nil => rfl
  | cons a ks ih =>
    show dictUpd k v ((a, f a) :: ks.map _) = _
    unfold dictUpd
    have hak : ¬(a = k) := by
      intro h
      rw [← h] at hk
      exact hk (List.mem_cons_self a ks)
    rw [if_neg hak]
    rw [ih (fun h => hk (List.mem_cons_of_mem _ h))]
    rfl

lemma dictUpd_map_of_mem (k : String) (v : Info) (ks : List String)
    (f : String → Info) (hk : k ∈ ks) (hnd : ks.Nodup) :
    dictUpd k v (ks.map (fun q => (q, f q))) =
      ks.map (fun q => (q, if q = k then v else f q)) := by
  induction ks with
  | nil => simp at hk
  | cons a ks ih =>
    rw [List.nodup_cons] at hnd
    show dictUpd k v ((a, f a) :: ks.map _) = _
    unfold dictUpd
    by_cases hak : a = k
    · rw [if_pos hak]
      have hkks : k ∉ ks := by
        rw [← hak]
        exact hnd.1
      simp only [List.map_cons]
      rw [show (a, if a = k then v else f a) = (k, v) by rw [hak, if_pos rfl]]
      congr 1
      apply List.map_congr_left
      intro q hq
      have hqk : ¬(q = k) := by
        intro h
        rw [h] at hq
        exact hkks hq
      rw [if_neg hqk]
    · rw [if_neg hak]
      rcases List.mem_cons.mp hk with rfl | hk'
      · exact absurd rfl hak
      · rw [ih hk' hnd.2]
        simp only [List.map_cons, if_neg hak]

lemma buildIndex_eq (ws : List (String × Info)) :
    buildIndex ws = (distinctKeys ws).map (fun q => (q, lastWriteD ws q)) := by
  induction ws using List.reverseRecOn with
  | nil => rfl
  | append_singleton ws kv ih =>
    obtain ⟨k, v⟩ := kv
    rw [buildIndex_snoc, ih, distinctKeys_snoc]
    by_cases hmem : k ∈ distinctKeys ws
    · rw [if_pos hmem]
      rw [dictUpd_map_of_mem k v _ _ hmem (distinctKeys_nodup ws)]
      apply List.map_congr_left
      intro q _
      unfold lastWriteD
      rw [lastWrite_snoc]
      by_cases hqk : q = k
      · rw [if_pos hqk, if_pos hqk]
        rfl
      · rw [if_neg hqk, if_neg hqk]
    · rw [if_neg hmem]
      rw [dictUpd_map_of_not_mem k v _ _ hmem, List.map_append]
      congr 1
      · apply List.map_congr_left
        intro q hq
        unfold lastWriteD
        have hqk : ¬(q = k) := by
          intro h
          rw [h] at hq
          exact hmem hq
        rw [lastWrite_snoc, if_neg hqk]
      · simp [lastWriteD, lastWrite_snoc]

lemma length_filter_map {α β : Type} (f : α → β) (p : β → Bool) (l : List α) :
    ((l.map f).filter p).length = (l.filter (fun a => p (f a))).length := by
  induction l with
  | nil => rfl
  | cons a l ih =>
    simp only [List.map_cons, List.filter_cons]
    by_cases h : p (f a) = true
    · simp [h, ih]
    · simp [h, ih]

lemma length_flatMap' {α β : Type} (g : α → List β) (ts : List α) :
    (ts.flatMap g).length = (ts.map (fun t => (g t).length)).sum := by
  induction ts with
  | nil => rfl
  | cons a ts ih =>
    simp [List.flatMap_cons, ih]

/-- C9: the element index is a dict keyed by the locator string.  The
final index holds one entry per distinct locator, in first-occurrence
order, whose descriptor is the *last* one written for that locator (a
later element with the same locator overwrites the earlier one); and the
reported label/heading counts equal the number of distinct locators whose
final descriptor carries the tag, not the number of scanned elements. -/
theorem C9_index_keyed_by_locator (ws : List (String × Info)) :
    buildIndex ws = (distinctKeys ws).map (fun q => (q, lastWriteD ws q)) ∧
    (distinctKeys ws).Nodup ∧
    (labelEntries (buildIndex ws)).length =
      ((distinctKeys ws).filter
        (fun q => (lastWriteD ws q).tag == "label")).length ∧
    (headingEntries (buildIndex ws)).length =
      (headingTags.map (fun t =>
        ((distinctKeys ws).filter
          (fun q => (lastWriteD ws q).tag == t)).length)).sum := by
  refine ⟨buildIndex_eq ws, distinctKeys_nodup ws, ?_, ?_⟩
  · unfold labelEntries
    rw [buildIndex_eq, length_filter_map]
  · unfold headingEntries
    rw [length_flatMap']
    congr 1
    apply List.map_congr_left
    intro t _
    rw [buildIndex_eq, length_filter_map]

end Wcag
